import Mathlib

/-!
Verification of the DCA simulator repository.

Shallow embedding of the two source files:

* `interpollation_filling.py` — namespace `InterpFill`: duplicate handling
  (`handle_duplicates`, groupby-mean), calendar completion and the four fill
  methods (`resample_and_fill`: ffill, bfill, linear interpolation, mean fill)
  together with the universal bfill-then-ffill post-pass.
* `plotcomp.py` — namespace `PlotComp`: data cleaning (`clean_data` /
  `drop_duplicates` keeping the first occurrence), the DCA simulation
  (`calculate_dca`) and the scenario batch loop (`collect_dca_scenarios`).

Dates are modelled as integers (days since an epoch for the daily data of
`InterpFill`, months since an epoch for the monthly data of `PlotComp`);
prices and values are exact rationals.
-/

namespace InterpFill

/-- One row of the date-indexed frame: a calendar date (integer day number)
and its numeric value. -/
structure Row where
  date : Int
  value : Rat
deriving DecidableEq

attribute [ext] Row

/-- Arithmetic mean of a list of rationals (0 for the empty list, matching
the unreachable case). -/
def ratMean (l : List Rat) : Rat := l.sum / l.length

/-- The date column of a frame. -/
def datesOf (df : List Row) : List Int := df.map (fun r => r.date)

/-- Embedding of `df.groupby(date_col).mean().reset_index()`: pandas groups
by date with sorted keys (ascending) and averages each group's values. -/
def groupMean (df : List Row) : List Row :=
  (List.insertionSort (fun a b => a ≤ b) (datesOf df).dedup).map
    (fun d => ⟨d, ratMean ((df.filter (fun r => r.date = d)).map (fun r => r.value))⟩)

/-- Embedding of `handle_duplicates`: if any date is duplicated, replace the
frame by the per-date group means (pandas `groupby(date).mean()`), otherwise
return the frame unchanged. -/
def handle_duplicates (df : List Row) : List Row :=
  if (datesOf df).Nodup then df else groupMean df

/-- The distinct dates of a list in order of first occurrence.  This is the
spec-side notion of "relative order of distinct dates" of the input, used to
compare against the order actually produced by `handle_duplicates`. -/
def firstDates : List Int → List Int
  | [] => []
  | d :: rest => d :: firstDates (rest.filter (fun x => x ≠ d))
termination_by l => l.length
decreasing_by
  simp only [List.length_cons]
  exact Nat.lt_succ_of_le (List.length_filter_le _ _)

lemma datesOf_groupMean (df : List Row) :
    datesOf (groupMean df) = List.insertionSort (fun a b => a ≤ b) (datesOf df).dedup := by
  simp [datesOf, groupMean, List.map_map, Function.comp_def]

lemma mem_datesOf_groupMean (df : List Row) (d : Int) :
    d ∈ datesOf (groupMean df) ↔ d ∈ datesOf df := by
  rw [datesOf_groupMean]
  rw [(List.perm_insertionSort (fun a b => a ≤ b) (datesOf df).dedup).mem_iff]
  exact List.mem_dedup

lemma nodup_datesOf_groupMean (df : List Row) : (datesOf (groupMean df)).Nodup := by
  rw [datesOf_groupMean]
  exact (List.perm_insertionSort (fun a b => a ≤ b) (datesOf df).dedup).nodup_iff.mpr
    (List.nodup_dedup _)

lemma pairwise_lt_datesOf_groupMean (df : List Row) :
    (datesOf (groupMean df)).Pairwise (· < ·) := by
  have hs : (datesOf (groupMean df)).Pairwise (fun a b => a ≤ b) := by
    rw [datesOf_groupMean]
    exact List.sorted_insertionSort (fun a b => a ≤ b) (datesOf df).dedup
  have hn := nodup_datesOf_groupMean df
  exact (hs.and hn).imp (fun h => lt_of_le_of_ne h.1 h.2)

lemma value_of_mem_groupMean (df : List Row) (r : Row) (hr : r ∈ groupMean df) :
    r.value = ratMean ((df.filter (fun x => x.date = r.date)).map (fun x => x.value)) := by
  simp only [groupMean, List.mem_map] at hr
  obtain ⟨d, _, rfl⟩ := hr
  simp

lemma filter_date_eq_of_nodup (df : List Row) (hnd : (datesOf df).Nodup) (r : Row)
    (hr : r ∈ df) : df.filter (fun x => x.date = r.date) = [r] := by
  induction df with
  | nil => cases hr
  | cons h tl ih =>
    simp only [datesOf, List.map_cons, List.nodup_cons] at hnd
    rcases List.mem_cons.mp hr with rfl | hmem
    · have htl : tl.filter (fun x => x.date = r.date) = [] := by
        rw [List.filter_eq_nil_iff]
        intro a ha had
        exact hnd.1 (by simpa using ⟨a, ha, of_decide_eq_true had⟩)
      simp [List.filter_cons, htl]
    · have hne : h.date ≠ r.date := by
        intro he
        exact hnd.1 (by simpa [he] using ⟨r, hmem, rfl⟩)
      have := ih (by simpa [datesOf] using hnd.2) hmem
      simp [List.filter_cons, hne, this]

/-- Claim C5 (amended): `handle_duplicates` produces strictly unique dates,
keeps exactly the dates of the input, gives every output row the arithmetic
mean of the values of its date group (so a size-1 group passes through
unchanged), returns the frame unchanged when no date repeats, and — when
duplicates are present — emits the distinct dates in ascending sorted order
(pandas `groupby` sorts its keys), rather than in input order. -/
theorem C5_dedup_behaviour (df : List Row) :
    ((handle_duplicates df).map (fun r => r.date)).Nodup ∧
    (∀ d : Int, d ∈ (handle_duplicates df).map (fun r => r.date) ↔ d ∈ datesOf df) ∧
    (∀ r ∈ handle_duplicates df,
      r.value = ratMean ((df.filter (fun x => x.date = r.date)).map (fun x => x.value))) ∧
    ((datesOf df).Nodup → handle_duplicates df = df) ∧
    (¬ (datesOf df).Nodup →
      ((handle_duplicates df).map (fun r => r.date)).Pairwise (· < ·)) := by
  by_cases hnd : (datesOf df).Nodup
  · rw [handle_duplicates, if_pos hnd]
    refine ⟨hnd, fun d => Iff.rfl, ?_, fun _ => rfl, fun h => absurd hnd h⟩
    intro r hr
    rw [filter_date_eq_of_nodup df hnd r hr]
    simp [ratMean]
  · rw [handle_duplicates, if_neg hnd]
    exact ⟨nodup_datesOf_groupMean df,
      fun d => mem_datesOf_groupMean df d,
      fun r hr => value_of_mem_groupMean df r hr,
      fun h => absurd h hnd,
      fun _ => pairwise_lt_datesOf_groupMean df⟩

/-- Witness for C5: the amended theorem applied at the concrete duplicate-laden
frame with dates [2, 1, 2]; the nodup-branch implication is discharged at a
duplicate-free frame. -/
theorem C5_dedup_behaviour_witness :
    handle_duplicates [(⟨5, 1⟩ : Row), ⟨3, 2⟩] = [⟨5, 1⟩, ⟨3, 2⟩] ∧
    ((handle_duplicates [(⟨2, 5⟩ : Row), ⟨1, 3⟩, ⟨2, 7⟩]).map
      (fun r => r.date)).Pairwise (· < ·) := by
  constructor
  · exact (C5_dedup_behaviour [⟨5, 1⟩, ⟨3, 2⟩]).2.2.2.1 (by decide)
  · exact (C5_dedup_behaviour [⟨2, 5⟩, ⟨1, 3⟩, ⟨2, 7⟩]).2.2.2.2 (by decide)

/-- Counterexample for C5 as stated: on the input with rows at dates
[2, 1, 2] (values 5, 3, 7), the distinct input dates in order of first
occurrence are [2, 1], but `handle_duplicates` emits [1, 2] — pandas
`groupby(date).mean()` sorts the group keys, so the relative order of
distinct dates is NOT preserved (the averaging itself is correct:
(5+7)/2 = 6). -/
theorem C5_order_counterexample :
    handle_duplicates [(⟨2, 5⟩ : Row), ⟨1, 3⟩, ⟨2, 7⟩] = [⟨1, 3⟩, ⟨2, 6⟩] ∧
    firstDates (datesOf [(⟨2, 5⟩ : Row), ⟨1, 3⟩, ⟨2, 7⟩]) = [2, 1] ∧
    (handle_duplicates [(⟨2, 5⟩ : Row), ⟨1, 3⟩, ⟨2, 7⟩]).map (fun r => r.date) ≠
      firstDates (datesOf [(⟨2, 5⟩ : Row), ⟨1, 3⟩, ⟨2, 7⟩]) := by
  have h : ¬ (datesOf [(⟨2, 5⟩ : Row), ⟨1, 3⟩, ⟨2, 7⟩]).Nodup := by decide
  have h1 : handle_duplicates [(⟨2, 5⟩ : Row), ⟨1, 3⟩, ⟨2, 7⟩] = [⟨1, 3⟩, ⟨2, 6⟩] := by
    rw [handle_duplicates, if_neg h, groupMean]
    norm_num [datesOf, ratMean, List.dedup, List.pwFilter, List.insertionSort,
      List.orderedInsert, List.filter, Row.ext_iff]
  have h2 : firstDates (datesOf [(⟨2, 5⟩ : Row), ⟨1, 3⟩, ⟨2, 7⟩]) = [2, 1] := by
    simp [firstDates, datesOf]
  refine ⟨h1, h2, ?_⟩
  rw [h1, h2]
  decide

/-- A grid entry of the daily reindexed frame: a calendar date paired with
`some value` (known) or `none` (the NaN introduced by `reindex` for a
missing date, before it is filled). -/
abbrev Grid := List (Int × Option Rat)

/-- The complete daily calendar from `lo` to `hi` inclusive
(`pd.date_range(start, end, freq='D')`). -/
def dateRange (lo hi : Int) : List Int :=
  (List.range (hi + 1 - lo).toNat).map (fun i : Nat => lo + (i : Int))

/-- The value of the frame at date `d`, if present
(the row reindexing picks up). -/
def lookupValue (df : List Row) (d : Int) : Option Rat :=
  (df.find? (fun r => r.date = d)).map (fun r => r.value)

/-- Minimum of the date column (`df.index.min()`); the default is only used
for the empty frame, on which the source raises before reaching it. -/
def loOf (df : List Row) : Int :=
  match df with
  | [] => 0
  | r0 :: _ => (datesOf df).foldl min r0.date

/-- Maximum of the date column (`df.index.max()`). -/
def hiOf (df : List Row) : Int :=
  match df with
  | [] => 0
  | r0 :: _ => (datesOf df).foldl max r0.date

/-- Embedding of `df.reindex(pd.date_range(df.index.min(), df.index.max(), freq='D'))`:
every calendar date in range, carrying the frame's value where the date is
present and a NaN placeholder where it is not. -/
def baseGrid (df : List Row) : Grid :=
  (dateRange (loOf df) (hiOf df)).map (fun d => (d, lookupValue df d))

/-- Forward fill from a carried last-known value (`fillna(method='ffill')`
semantics): a NaN takes the most recent preceding known value, if any. -/
def ffillFrom (last : Option Rat) : Grid → Grid
  | [] => []
  | (d, some v) :: rest => (d, some v) :: ffillFrom (some v) rest
  | (d, none) :: rest => (d, last) :: ffillFrom last rest

/-- Embedding of `ffill()`. -/
def ffill (g : Grid) : Grid := ffillFrom none g

/-- The (possibly missing) value of the first grid entry. -/
def headOptVal : Grid → Option Rat
  | [] => none
  | p :: _ => p.2

/-- Embedding of `bfill()`: a NaN takes the nearest following known value,
if any (recursively, the filled value of the next entry). -/
def bfill : Grid → Grid
  | [] => []
  | (d, some v) :: rest => (d, some v) :: bfill rest
  | (d, none) :: rest =>
    let r := bfill rest
    (d, headOptVal r) :: r

/-- The position and value of the last known entry at index at most `i`
(scanning downward). -/
def knownBefore (g : Grid) : Nat → Option (Nat × Rat)
  | 0 =>
    match g.get? 0 with
    | some (_, some v) => some (0, v)
    | _ => none
  | i + 1 =>
    match g.get? (i + 1) with
    | some (_, some v) => some (i + 1, v)
    | _ => knownBefore g i

/-- Fuelled upward scan for the first known entry at index at least `i`. -/
def knownFromAux (g : Grid) : Nat → Nat → Option (Nat × Rat)
  | 0, _ => none
  | fuel + 1, i =>
    match g.get? i with
    | some (_, some v) => some (i, v)
    | some (_, none) => knownFromAux g fuel (i + 1)
    | none => none

/-- The position and value of the first known entry at index at least `i`. -/
def knownFrom (g : Grid) (i : Nat) : Option (Nat × Rat) :=
  knownFromAux g (g.length - i) i

/-- Embedding of `interpolate(method='linear')`: pandas treats the values as
equally spaced (here the grid is daily, so positions coincide with calendar
days), interpolates every NaN that has known values on both sides linearly
in position, pads a NaN that only has a preceding known value with that
value (pandas' default forward limit direction), and leaves a leading NaN
with no preceding known value unresolved. -/
def interpolateLinear (g : Grid) : Grid :=
  g.enum.map (fun p =>
    match p.2.2 with
    | some v => (p.2.1, some v)
    | none =>
      match knownBefore g p.1, knownFrom g p.1 with
      | some (i1, v1), some (i2, v2) =>
        (p.2.1, some (v1 + (v2 - v1) * (((p.1 : Int) - (i1 : Int) : Int) : Rat) /
          (((i2 : Int) - (i1 : Int) : Int) : Rat)))
      | some (_, v1), none => (p.2.1, some v1)
      | none, _ => (p.2.1, none))

/-- The known values of a grid, in order (the non-NaN entries of the column,
over which pandas computes the column mean). -/
def knownValues (g : Grid) : List Rat := g.filterMap (fun p => p.2)

/-- Embedding of `fillna(df_resampled.mean())`: every NaN takes the mean of
the known values of the column; if the column has no known value the mean is
itself NaN and nothing is filled. -/
def meanFill (g : Grid) : Grid :=
  if (knownValues g).isEmpty then g
  else g.map (fun p => (p.1, some (p.2.getD (ratMean (knownValues g)))))

/-- Errors of `resample_and_fill`: the `ValueError` for an unrecognized fill
method, and the failure of `pd.date_range` on an empty frame. -/
inductive FillError where
  | emptyData : FillError
  | unknownFillMethod : String → FillError
deriving DecidableEq

/-- Embedding of `resample_and_fill`: reindex onto the complete daily
calendar, fill via the selected method ('ffill', 'bfill', 'linear', 'mean';
anything else raises), then the universal post-pass
`fillna(method='bfill').fillna(method='ffill')`. -/
def resample_and_fill (df : List Row) (fill_method : String) : Except FillError Grid :=
  match df with
  | [] => .error .emptyData
  | _ :: _ =>
    let g := baseGrid df
    match fill_method with
    | "ffill" => .ok (ffill (bfill (ffill g)))
    | "bfill" => .ok (ffill (bfill (bfill g)))
    | "linear" => .ok (ffill (bfill (interpolateLinear g)))
    | "mean" => .ok (ffill (bfill (meanFill g)))
    | _ => .error (.unknownFillMethod fill_method)

lemma foldl_min_le_init (l : List Int) (b : Int) : l.foldl min b ≤ b := by
  induction l generalizing b with
  | nil => exact le_rfl
  | cons a l ih => exact le_trans (ih (min b a)) (min_le_left b a)

lemma foldl_min_le_of_mem (l : List Int) (b x : Int) (hx : x ∈ l) : l.foldl min b ≤ x := by
  induction l generalizing b with
  | nil => cases hx
  | cons a l ih =>
    rcases List.mem_cons.mp hx with rfl | hmem
    · exact le_trans (foldl_min_le_init l (min b x)) (min_le_right b x)
    · exact ih (min b a) hmem

lemma init_le_foldl_max (l : List Int) (b : Int) : b ≤ l.foldl max b := by
  induction l generalizing b with
  | nil => exact le_rfl
  | cons a l ih => exact le_trans (le_max_left b a) (ih (max b a))

lemma mem_le_foldl_max (l : List Int) (b x : Int) (hx : x ∈ l) : x ≤ l.foldl max b := by
  induction l generalizing b with
  | nil => cases hx
  | cons a l ih =>
    rcases List.mem_cons.mp hx with rfl | hmem
    · exact le_trans (le_max_right b x) (init_le_foldl_max l (max b x))
    · exact ih (max b a) hmem

lemma loOf_le_date (df : List Row) (r : Row) (hr : r ∈ df) : loOf df ≤ r.date := by
  match df with
  | [] => cases hr
  | r0 :: rest =>
    exact foldl_min_le_of_mem _ _ _ (List.mem_map.mpr ⟨r, hr, rfl⟩)

lemma date_le_hiOf (df : List Row) (r : Row) (hr : r ∈ df) : r.date ≤ hiOf df := by
  match df with
  | [] => cases hr
  | r0 :: rest =>
    exact mem_le_foldl_max _ _ _ (List.mem_map.mpr ⟨r, hr, rfl⟩)

lemma mem_dateRange (lo hi d : Int) : d ∈ dateRange lo hi ↔ lo ≤ d ∧ d ≤ hi := by
  simp only [dateRange, List.mem_map, List.mem_range]
  constructor
  · rintro ⟨i, hi', rfl⟩
    omega
  · rintro ⟨h1, h2⟩
    exact ⟨(d - lo).toNat, by omega, by omega⟩

lemma pairwise_dateRange (lo hi : Int) : (dateRange lo hi).Pairwise (· < ·) := by
  exact List.Pairwise.map _ (fun a b h => by omega) (List.pairwise_lt_range _)

lemma ffillFrom_map_fst (last : Option Rat) (g : Grid) :
    (ffillFrom last g).map Prod.fst = g.map Prod.fst := by
  induction g generalizing last with
  | nil => rfl
  | cons p rest ih =>
    obtain ⟨d, v⟩ := p
    cases v <;> simp [ffillFrom, ih]

lemma bfill_map_fst (g : Grid) : (bfill g).map Prod.fst = g.map Prod.fst := by
  induction g with
  | nil => rfl
  | cons p rest ih =>
    obtain ⟨d, v⟩ := p
    cases v <;> simp [bfill, ih]

lemma interpolateLinear_map_fst (g : Grid) :
    (interpolateLinear g).map Prod.fst = g.map Prod.fst := by
  unfold interpolateLinear
  rw [List.map_map]
  have : ∀ p : Nat × (Int × Option Rat),
      (Prod.fst ∘ fun p : Nat × (Int × Option Rat) =>
        match p.2.2 with
        | some v => (p.2.1, some v)
        | none =>
          match knownBefore g p.1, knownFrom g p.1 with
          | some (i1, v1), some (i2, v2) =>
            (p.2.1, some (v1 + (v2 - v1) * (((p.1 : Int) - (i1 : Int) : Int) : Rat) /
              (((i2 : Int) - (i1 : Int) : Int) : Rat)))
          | some (_, v1), none => (p.2.1, some v1)
          | none, _ => (p.2.1, none)) p = p.2.1 := by
    intro p
    rcases p with ⟨i, d, v⟩
    cases v with
    | some v => rfl
    | none =>
      simp only [Function.comp_apply]
      rcases knownBefore g i with _ | ⟨i1, v1⟩ <;> rcases knownFrom g i with _ | ⟨i2, v2⟩ <;> rfl
  rw [List.map_congr_left (fun p _ => this p)]
  have h2 : (fun p : Nat × (Int × Option Rat) => p.2.1) =
      (Prod.fst ∘ Prod.snd : Nat × (Int × Option Rat) → Int) := rfl
  rw [h2, ← List.map_map, List.enum_map_snd]

lemma meanFill_map_fst (g : Grid) : (meanFill g).map Prod.fst = g.map Prod.fst := by
  unfold meanFill
  split
  · rfl
  · rw [List.map_map]
    rfl

lemma baseGrid_map_fst (df : List Row) :
    (baseGrid df).map Prod.fst = dateRange (loOf df) (hiOf df) := by
  unfold baseGrid
  rw [List.map_map]
  have h : (Prod.fst ∘ fun d => (d, lookupValue df d)) = (id : Int → Int) := rfl
  rw [h, List.map_id]

lemma ffillFrom_get?_some (g : Grid) (last : Option Rat) (i : Nat) (d : Int) (v : Rat)
    (h : g.get? i = some (d, some v)) : (ffillFrom last g).get? i = some (d, some v) := by
  induction g generalizing last i with
  | nil => simp at h
  | cons p rest ih =>
    obtain ⟨d', v'⟩ := p
    cases i with
    | zero =>
      simp only [List.get?, Option.some.injEq, Prod.mk.injEq] at h
      obtain ⟨rfl, rfl⟩ := h
      rfl
    | succ n =>
      simp only [List.get?] at h
      cases v' <;> exact ih _ n h

lemma bfill_get?_some (g : Grid) (i : Nat) (d : Int) (v : Rat)
    (h : g.get? i = some (d, some v)) : (bfill g).get? i = some (d, some v) := by
  induction g generalizing i with
  | nil => simp at h
  | cons p rest ih =>
    obtain ⟨d', v'⟩ := p
    cases i with
    | zero =>
      simp only [List.get?, Option.some.injEq, Prod.mk.injEq] at h
      obtain ⟨rfl, rfl⟩ := h
      rfl
    | succ n =>
      simp only [List.get?] at h
      cases v' <;> exact ih n h

lemma interpolateLinear_get?_some (g : Grid) (i : Nat) (d : Int) (v : Rat)
    (h : g.get? i = some (d, some v)) : (interpolateLinear g).get? i = some (d, some v) := by
  unfold interpolateLinear
  rw [List.get?_map, List.enum_get?, h]
  rfl

lemma meanFill_get?_some (g : Grid) (i : Nat) (d : Int) (v : Rat)
    (h : g.get? i = some (d, some v)) : (meanFill g).get? i = some (d, some v) := by
  unfold meanFill
  split
  · exact h
  · rw [List.get?_map, h]
    rfl

lemma exists_some_mono (X : Grid → Grid)
    (hX : ∀ g i d v, g.get? i = some (d, some v) → (X g).get? i = some (d, some v))
    (g : Grid) (h : ∃ p ∈ g, p.2.isSome) : ∃ p ∈ X g, p.2.isSome := by
  obtain ⟨⟨d, vo⟩, hmem, hs⟩ := h
  obtain ⟨v, rfl⟩ := Option.isSome_iff_exists.mp hs
  obtain ⟨i, hi⟩ := List.mem_iff_get?.mp hmem
  exact ⟨(d, some v), List.mem_iff_get?.mpr ⟨i, hX g i d v hi⟩, rfl⟩

lemma ffillFrom_all_some (g : Grid) (v : Rat) :
    ∀ p ∈ ffillFrom (some v) g, p.2.isSome := by
  induction g generalizing v with
  | nil => intro p hp; cases hp
  | cons q rest ih =>
    obtain ⟨d, v'⟩ := q
    intro p hp
    cases v' with
    | some w =>
      rcases List.mem_cons.mp hp with rfl | hmem
      · rfl
      · exact ih w p hmem
    | none =>
      rcases List.mem_cons.mp hp with rfl | hmem
      · rfl
      · exact ih v p hmem

lemma bfill_headOptVal_some (g : Grid) (h : ∃ p ∈ g, p.2.isSome) :
    (headOptVal (bfill g)).isSome := by
  induction g with
  | nil => simp at h
  | cons q rest ih =>
    obtain ⟨d, v'⟩ := q
    cases v' with
    | some w => rfl
    | none =>
      obtain ⟨p, hmem, hs⟩ := h
      rcases List.mem_cons.mp hmem with rfl | hmem'
      · simp at hs
      · exact ih ⟨p, hmem', hs⟩

lemma postPass_all_some (g : Grid) (h : ∃ p ∈ g, p.2.isSome) :
    ∀ p ∈ ffill (bfill g), p.2.isSome := by
  induction g with
  | nil => simp at h
  | cons q rest ih =>
    obtain ⟨d, v'⟩ := q
    cases v' with
    | some w =>
      intro p hp
      simp only [bfill, ffill, ffillFrom] at hp
      rcases List.mem_cons.mp hp with rfl | hmem
      · rfl
      · exact ffillFrom_all_some _ w p hmem
    | none =>
      have hrest : ∃ p ∈ rest, p.2.isSome := by
        obtain ⟨p, hmem, hs⟩ := h
        rcases List.mem_cons.mp hmem with rfl | hmem'
        · simp at hs
        · exact ⟨p, hmem', hs⟩
      obtain ⟨w, hw⟩ := Option.isSome_iff_exists.mp (bfill_headOptVal_some rest hrest)
      intro p hp
      simp only [bfill, ffill] at hp
      rw [hw] at hp
      simp only [ffillFrom] at hp
      rcases List.mem_cons.mp hp with rfl | hmem
      · rfl
      · exact ffillFrom_all_some _ w p hmem

lemma postPass_map_fst (g : Grid) :
    (ffill (bfill g)).map Prod.fst = g.map Prod.fst := by
  rw [ffill, ffillFrom_map_fst, bfill_map_fst]

lemma baseGrid_exists_some (df : List Row) (hne : df ≠ []) :
    ∃ p ∈ baseGrid df, p.2.isSome := by
  obtain ⟨r0, rest, rfl⟩ := List.exists_cons_of_ne_nil hne
  refine ⟨(r0.date, lookupValue (r0 :: rest) r0.date), ?_, ?_⟩
  · refine List.mem_map.mpr ⟨r0.date, ?_, rfl⟩
    exact (mem_dateRange _ _ _).mpr
      ⟨loOf_le_date _ r0 (List.mem_cons_self _ _), date_le_hiOf _ r0 (List.mem_cons_self _ _)⟩
  · have h : (r0 :: rest).find? (fun r => r.date = r0.date) = some r0 :=
      List.find?_cons_of_pos _ (by simp)
    simp [lookupValue, h]

/-- Claim C6: for every deduplicated non-empty input series and every
recognized fill policy, `resample_and_fill` succeeds and its output contains
every calendar date between the minimum and maximum input date exactly once
(strictly ascending dates, membership exactly the closed interval), and after
the universal post-pass (backward fill first, then forward fill) every value
is resolved. -/
theorem C6_gap_closure (df : List Row) (m : String) (hne : df ≠ [])
    (hnd : (datesOf df).Nodup)
    (hm : m = "ffill" ∨ m = "bfill" ∨ m = "linear" ∨ m = "mean") :
    ∃ g, resample_and_fill df m = .ok g ∧
      g.map Prod.fst = dateRange (loOf df) (hiOf df) ∧
      (∀ d : Int, d ∈ g.map Prod.fst ↔ loOf df ≤ d ∧ d ≤ hiOf df) ∧
      (g.map Prod.fst).Pairwise (· < ·) ∧
      ∀ p ∈ g, p.2.isSome := by
  obtain ⟨r0, rest, rfl⟩ := List.exists_cons_of_ne_nil hne
  have hbase := baseGrid_exists_some (r0 :: rest) hne
  have hprops : ∀ X : Grid → Grid,
      (∀ g : Grid, (X g).map Prod.fst = g.map Prod.fst) →
      (∀ g i d v, g.get? i = some (d, some v) → (X g).get? i = some (d, some v)) →
      (ffill (bfill (X (baseGrid (r0 :: rest))))).map Prod.fst =
          dateRange (loOf (r0 :: rest)) (hiOf (r0 :: rest)) ∧
        (∀ d : Int, d ∈ (ffill (bfill (X (baseGrid (r0 :: rest))))).map Prod.fst ↔
          loOf (r0 :: rest) ≤ d ∧ d ≤ hiOf (r0 :: rest)) ∧
        ((ffill (bfill (X (baseGrid (r0 :: rest))))).map Prod.fst).Pairwise (· < ·) ∧
        ∀ p ∈ ffill (bfill (X (baseGrid (r0 :: rest)))), p.2.isSome := by
    intro X hfst hsome
    have hmf : (ffill (bfill (X (baseGrid (r0 :: rest))))).map Prod.fst =
        dateRange (loOf (r0 :: rest)) (hiOf (r0 :: rest)) := by
      rw [postPass_map_fst, hfst, baseGrid_map_fst]
    refine ⟨hmf, ?_, ?_, ?_⟩
    · intro d
      rw [hmf]
      exact mem_dateRange _ _ d
    · rw [hmf]
      exact pairwise_dateRange _ _
    · exact postPass_all_some _ (exists_some_mono X hsome _ hbase)
  rcases hm with rfl | rfl | rfl | rfl
  · exact ⟨_, rfl, hprops ffill (fun g => ffillFrom_map_fst none g)
      (fun g i d v h => ffillFrom_get?_some g none i d v h)⟩
  · exact ⟨_, rfl, hprops bfill (fun g => bfill_map_fst g)
      (fun g i d v h => bfill_get?_some g i d v h)⟩
  · exact ⟨_, rfl, hprops interpolateLinear (fun g => interpolateLinear_map_fst g)
      (fun g i d v h => interpolateLinear_get?_some g i d v h)⟩
  · exact ⟨_, rfl, hprops meanFill (fun g => meanFill_map_fst g)
      (fun g i d v h => meanFill_get?_some g i d v h)⟩

/-- Witness for C6: the linear policy on the two-row frame with dates 0 and 3
fills the whole daily range with resolved values. -/
theorem C6_gap_closure_witness :
    ∃ g, resample_and_fill [(⟨0, 10⟩ : Row), ⟨3, 16⟩] "linear" = .ok g ∧
      g.map Prod.fst = dateRange (loOf [(⟨0, 10⟩ : Row), ⟨3, 16⟩])
        (hiOf [(⟨0, 10⟩ : Row), ⟨3, 16⟩]) ∧
      (∀ d : Int, d ∈ g.map Prod.fst ↔ loOf [(⟨0, 10⟩ : Row), ⟨3, 16⟩] ≤ d ∧
        d ≤ hiOf [(⟨0, 10⟩ : Row), ⟨3, 16⟩]) ∧
      (g.map Prod.fst).Pairwise (· < ·) ∧
      ∀ p ∈ g, p.2.isSome :=
  C6_gap_closure [⟨0, 10⟩, ⟨3, 16⟩] "linear" (by decide) (by decide)
    (Or.inr (Or.inr (Or.inl rfl)))

lemma knownBefore_eq (g : Grid) (i1 : Nat) (d1 : Int) (v1 : Rat) :
    ∀ i, i1 ≤ i → g.get? i1 = some (d1, some v1) →
    (∀ j, i1 < j → j ≤ i → ∃ d', g.get? j = some (d', none)) →
    knownBefore g i = some (i1, v1) := by
  intro i
  induction i with
  | zero =>
    intro hle h1 _
    obtain rfl : i1 = 0 := Nat.le_zero.mp hle
    unfold knownBefore
    rw [h1]
  | succ n ih =>
    intro hle h1 hgap
    by_cases he : i1 = n + 1
    · subst he
      unfold knownBefore
      rw [h1]
    · obtain ⟨d', hd'⟩ := hgap (n + 1) (by omega) le_rfl
      unfold knownBefore
      rw [hd']
      exact ih (by omega) h1 (fun j hj1 hj2 => hgap j hj1 (by omega))

lemma knownFromAux_eq (g : Grid) (i2 : Nat) (d2 : Int) (v2 : Rat)
    (h2 : g.get? i2 = some (d2, some v2)) :
    ∀ fuel i, i ≤ i2 → i2 - i < fuel →
    (∀ j, i ≤ j → j < i2 → ∃ d', g.get? j = some (d', none)) →
    knownFromAux g fuel i = some (i2, v2) := by
  intro fuel
  induction fuel with
  | zero =>
    intro i h1 h2' _
    omega
  | succ f ih =>
    intro i hle hfuel hgap
    by_cases he : i = i2
    · subst he
      unfold knownFromAux
      rw [h2]
    · obtain ⟨d', hd'⟩ := hgap i le_rfl (by omega)
      unfold knownFromAux
      rw [hd']
      exact ih (i + 1) (by omega) (by omega) (fun j hj1 hj2 => hgap j (by omega) hj2)

lemma knownFrom_eq (g : Grid) (i i2 : Nat) (d2 : Int) (v2 : Rat)
    (hle : i ≤ i2) (hlen : i2 < g.length)
    (h2 : g.get? i2 = some (d2, some v2))
    (hgap : ∀ j, i ≤ j → j < i2 → ∃ d', g.get? j = some (d', none)) :
    knownFrom g i = some (i2, v2) :=
  knownFromAux_eq g i2 d2 v2 h2 (g.length - i) i hle (by omega) hgap

lemma interpolateLinear_get?_interp (g : Grid) (i i1 i2 : Nat) (d : Int) (v1 v2 : Rat)
    (h : g.get? i = some (d, none))
    (hb : knownBefore g i = some (i1, v1))
    (hf : knownFrom g i = some (i2, v2)) :
    (interpolateLinear g).get? i = some (d, some (v1 + (v2 - v1) *
      (((i : Int) - (i1 : Int) : Int) : Rat) / (((i2 : Int) - (i1 : Int) : Int) : Rat))) := by
  unfold interpolateLinear
  rw [List.get?_map, List.enum_get?, h]
  simp only [Option.map_some']
  rw [hb, hf]

lemma baseGrid_get? (df : List Row) (j : Nat) (hj : j < (hiOf df + 1 - loOf df).toNat) :
    (baseGrid df).get? j =
      some (loOf df + (j : Int), lookupValue df (loOf df + (j : Int))) := by
  unfold baseGrid dateRange
  rw [List.get?_map, List.get?_map, List.get?_range hj]
  rfl

lemma lookupValue_of_mem_nodup (df : List Row) (hnd : (datesOf df).Nodup) (r : Row)
    (hr : r ∈ df) : lookupValue df r.date = some r.value := by
  induction df with
  | nil => cases hr
  | cons h tl ih =>
    simp only [datesOf, List.map_cons, List.nodup_cons] at hnd
    by_cases hd : h.date = r.date
    · rcases List.mem_cons.mp hr with rfl | hmem
      · rw [lookupValue, List.find?_cons_of_pos _ (by simp)]
        rfl
      · exact absurd (by simpa [hd] using ⟨r, hmem, rfl⟩ :
          h.date ∈ List.map (fun x => x.date) tl) hnd.1
    · rcases List.mem_cons.mp hr with rfl | hmem
      · exact absurd rfl hd
      · rw [lookupValue, List.find?_cons_of_neg _ (by simpa using hd)]
        exact ih (by simpa [datesOf] using hnd.2) hmem

lemma lookupValue_eq_none (df : List Row) (d : Int) (h : ∀ r ∈ df, r.date ≠ d) :
    lookupValue df d = none := by
  rw [lookupValue, List.find?_eq_none.mpr (fun r hr => by simpa using h r hr)]
  rfl

/-- Claim C7: under the linear fill policy, a placeholder date `t` strictly
between two known dates `t1 < t2` (values `v1`, `v2`) with no input date in
between receives exactly `v1 + (v2 - v1) * (t - t1) / (t2 - t1)` —
interpolation proportional to elapsed calendar time (the daily grid makes
pandas' position-proportional interpolation calendar-proportional), and the
value survives the post-pass into the final output at position
`t - loOf df`. -/
theorem C7_linear_boundary (df : List Row) (hnd : (datesOf df).Nodup)
    (t1 t t2 : Int) (v1 v2 : Rat)
    (h1 : (⟨t1, v1⟩ : Row) ∈ df) (h2 : (⟨t2, v2⟩ : Row) ∈ df)
    (hlt1 : t1 < t) (hlt2 : t < t2)
    (hgap : ∀ r ∈ df, ¬ (t1 < r.date ∧ r.date < t2)) :
    ∃ g, resample_and_fill df "linear" = .ok g ∧
      g.get? (t - loOf df).toNat =
        some (t, some (v1 + (v2 - v1) * ((t - t1 : Int) : Rat) / ((t2 - t1 : Int) : Rat))) := by
  have hne : df ≠ [] := by
    intro he
    rw [he] at h1
    cases h1
  have hok : resample_and_fill df "linear" =
      .ok (ffill (bfill (interpolateLinear (baseGrid df)))) := by
    obtain ⟨r0, rest, rfl⟩ := List.exists_cons_of_ne_nil hne
    rfl
  set lo := loOf df with hlo
  set hi := hiOf df with hhi
  have hlot1 : lo ≤ t1 := loOf_le_date df ⟨t1, v1⟩ h1
  have ht2hi : t2 ≤ hi := date_le_hiOf df ⟨t2, v2⟩ h2
  have hlen : (baseGrid df).length = (hi + 1 - lo).toNat := by
    unfold baseGrid dateRange
    simp
  set i1 := (t1 - lo).toNat with hi1
  set i := (t - lo).toNat with hidef
  set i2 := (t2 - lo).toNat with hi2
  have hcast1 : lo + (i1 : Int) = t1 := by omega
  have hcast : lo + (i : Int) = t := by omega
  have hcast2 : lo + (i2 : Int) = t2 := by omega
  have hb1 : (baseGrid df).get? i1 = some (t1, some v1) := by
    rw [baseGrid_get? df i1 (by omega), hcast1,
      show lookupValue df t1 = some v1 from lookupValue_of_mem_nodup df hnd ⟨t1, v1⟩ h1]
  have hb2 : (baseGrid df).get? i2 = some (t2, some v2) := by
    rw [baseGrid_get? df i2 (by omega), hcast2,
      show lookupValue df t2 = some v2 from lookupValue_of_mem_nodup df hnd ⟨t2, v2⟩ h2]
  have hnone : ∀ j : Nat, i1 < j → j < i2 →
      (baseGrid df).get? j = some (lo + (j : Int), none) := by
    intro j hj1 hj2
    rw [baseGrid_get? df j (by omega)]
    rw [lookupValue_eq_none df (lo + (j : Int)) ?_]
    intro r hr he
    exact hgap r hr ⟨by omega, by omega⟩
  have hmid : (baseGrid df).get? i = some (t, none) := by
    have := hnone i (by omega) (by omega)
    rwa [hcast] at this
  have hkb : knownBefore (baseGrid df) i = some (i1, v1) :=
    knownBefore_eq (baseGrid df) i1 t1 v1 i (by omega) hb1
      (fun j hj1 hj2 => ⟨lo + (j : Int), hnone j hj1 (by omega)⟩)
  have hkf : knownFrom (baseGrid df) i = some (i2, v2) :=
    knownFrom_eq (baseGrid df) i i2 t2 v2 (by omega) (by omega) hb2
      (fun j hj1 hj2 => ⟨lo + (j : Int), hnone j (by omega) hj2⟩)
  have hinterp := interpolateLinear_get?_interp (baseGrid df) i i1 i2 t v1 v2 hmid hkb hkf
  have hvals : (((i : Int) - (i1 : Int) : Int) : Rat) = ((t - t1 : Int) : Rat) ∧
      (((i2 : Int) - (i1 : Int) : Int) : Rat) = ((t2 - t1 : Int) : Rat) := by
    constructor <;> · congr 1; omega
  rw [hvals.1, hvals.2] at hinterp
  refine ⟨_, hok, ?_⟩
  exact ffillFrom_get?_some _ none i t _ (bfill_get?_some _ i t _ hinterp)

/-- Witness for C7: in the frame with known values 10 at date 0 and 16 at
date 3, the filled value at date 1 is 10 + 6 * 1/3 = 12. -/
theorem C7_linear_boundary_witness :
    ∃ g, resample_and_fill [(⟨0, 10⟩ : Row), ⟨3, 16⟩] "linear" = .ok g ∧
      g.get? (1 - loOf [(⟨0, 10⟩ : Row), ⟨3, 16⟩]).toNat =
        some (1, some (10 + (16 - 10) * ((1 - 0 : Int) : Rat) / ((3 - 0 : Int) : Rat))) := by
  exact C7_linear_boundary [⟨0, 10⟩, ⟨3, 16⟩] (by decide) 0 1 3 10 16
    (List.mem_cons_self _ _) (by simp) (by omega) (by omega) (by decide)

end InterpFill

namespace PlotComp

/-- One row of a monthly price series: the date (integer month number, the
month-end label produced by the upstream monthly resampling) and the price
(gold frame column 'Price', or the S&P 500 value series). -/
structure Row where
  date : Int
  price : Rat
deriving DecidableEq

attribute [ext] Row

/-- The price of a series at a date, if the date is present in its index:
`df.loc[date]` combined with the `date in df.index` membership test. -/
def priceAt (df : List Row) (d : Int) : Option Rat :=
  (df.find? (fun r => r.date = d)).map (fun r => r.price)

/-- The running state of the simulation loop of `calculate_dca`: share
counts, total invested so far, and the two accumulated value lists. -/
structure DcaState where
  gold_shares : Rat
  snp500_shares : Rat
  total_invested : Rat
  total_portfolio_values : List Rat
  cumulative_invested : List Rat
deriving DecidableEq

/-- The initial simulation state (all zeros, empty lists). -/
def dca_init : DcaState := ⟨0, 0, 0, [], []⟩

/-- One iteration of the `for date in gold_monthly.index` loop body of
`calculate_dca`: if the date is present in both (filtered) series, buy
shares of each asset whose price is strictly positive, add the full monthly
amount to the invested total unconditionally, and append the current
portfolio value and the invested total; otherwise do nothing. -/
def dca_step (gold snp : List Row) (total_invest gold_percentage snp_percentage : Rat)
    (s : DcaState) (d : Int) : DcaState :=
  match priceAt gold d, priceAt snp d with
  | some gold_price, some snp_price =>
    let gold_invest := total_invest * (gold_percentage / 100)
    let snp_invest := total_invest * (snp_percentage / 100)
    let gold_shares :=
      if 0 < gold_price then s.gold_shares + gold_invest / gold_price else s.gold_shares
    let snp500_shares :=
      if 0 < snp_price then s.snp500_shares + snp_invest / snp_price else s.snp500_shares
    let total_invested := s.total_invested + total_invest
    ⟨gold_shares, snp500_shares, total_invested,
      s.total_portfolio_values ++ [gold_shares * gold_price + snp500_shares * snp_price],
      s.cumulative_invested ++ [total_invested]⟩
  | _, _ => s

/-- The `.loc[start_date:]` restriction of a series (rows at or after the
start date; the upstream index is sorted, for which the pandas slice is
exactly this filter). -/
def filterFrom (df : List Row) (sd : Int) : List Row :=
  df.filter (fun r => sd ≤ r.date)

/-- The final state of the simulation loop of `calculate_dca`. -/
def dca_final (gold snp : List Row) (total_invest gold_percentage snp_percentage : Rat)
    (sd : Int) : DcaState :=
  ((filterFrom gold sd).map (fun r => r.date)).foldl
    (dca_step (filterFrom gold sd) (filterFrom snp sd)
      total_invest gold_percentage snp_percentage) dca_init

/-- The two raw output series of `calculate_dca` before the optional
rebalance resampling: the accumulated value lists, indexed by the FIRST
`n` dates of the filtered gold index
(`pd.Series(values, index=gold_monthly.index[:len(values)])`). -/
def dca_series (gold snp : List Row) (total_invest gold_percentage snp_percentage : Rat)
    (sd : Int) : List (Int × Rat) × List (Int × Rat) :=
  let fin := dca_final gold snp total_invest gold_percentage snp_percentage sd
  let idx := (filterFrom gold sd).map (fun r => r.date)
  ((idx.take fin.total_portfolio_values.length).zip fin.total_portfolio_values,
   (idx.take fin.cumulative_invested.length).zip fin.cumulative_invested)

/-- The dates that are actually simulated: dates of the filtered gold index
that are also present in the filtered S&P index ("present in both series,
at or after the start date", in gold-index order). -/
def eligible_dates (gold snp : List Row) (sd : Int) : List Int :=
  ((filterFrom gold sd).map (fun r => r.date)).filter
    (fun d => ((filterFrom snp sd).map (fun r => r.date)).contains d)

/-- The rebalance period length in months for each recognized frequency
string: the `{'monthly': 'M', 'quarterly': 'Q', 'semiannually': '2Q',
'annually': 'A'}` mapping of the source; an unrecognized string maps to
nothing (`dict.get` returns `None` and the subsequent `resample(None)`
raises). -/
def mppOf (f : String) : Option Int :=
  if f = "monthly" then some 1
  else if f = "quarterly" then some 3
  else if f = "semiannually" then some 6
  else if f = "annually" then some 12
  else none

/-- The last value of a series falling in period `q` (periods are blocks of
`mpp` consecutive months aligned at multiples of `mpp`), if any. -/
def lastInPeriod (mpp : Int) (l : List (Int × Rat)) (q : Int) : Option Rat :=
  ((l.filter (fun p => p.1 / mpp = q)).getLast?).map Prod.snd

/-- Embedding of `series.resample(freq).last()`: one output entry per period
from the first to the last period touched by the index, labelled with the
period-end month, holding the last value in the period or NaN (`none`) for a
period containing no dates. -/
def resampleLast (mpp : Int) (l : List (Int × Rat)) : List (Int × Option Rat) :=
  match l with
  | [] => []
  | p0 :: _ =>
    let ds := l.map Prod.fst
    let lo := (ds.foldl min p0.1) / mpp
    let hi := (ds.foldl max p0.1) / mpp
    (List.range (hi + 1 - lo).toNat).map (fun i : Nat =>
      ((lo + (i : Int)) * mpp + (mpp - 1), lastInPeriod mpp l (lo + (i : Int))))

/-- Failure modes of the simulation code: the `IndexError` raised by
`total_portfolio_value_series.iloc[-1]` in the summary logging when no
period was simulated (the spec's `NoEligibleDates`), the `TypeError` raised
by `resample(None)` for an unrecognized rebalance frequency, and the
`IndexError` of `gold_monthly.index[0]` on an empty index in the scenario
loop. -/
inductive DcaError where
  | noEligibleDates : DcaError
  | unknownRebalanceFrequency : String → DcaError
  | emptyGoldIndex : DcaError
deriving DecidableEq

/-- A raw series viewed as an output series with every value known. -/
def wrapKnown (l : List (Int × Rat)) : List (Int × Option Rat) :=
  l.map (fun p => (p.1, some p.2))

/-- Embedding of `calculate_dca`: run the simulation loop over the filtered
gold index, build the two series on the first-`n`-dates index, optionally
resample both to the rebalance cadence taking the last value of each period
(`if rebalance_frequency:` — the empty string is falsy in Python and skips
the resample), and fail (the final `iloc[-1]` logging) when the resulting
portfolio series is empty. -/
def calculate_dca (gold snp : List Row) (total_invest gold_percentage snp_percentage : Rat)
    (start_date : Int) (rebalance_frequency : Option String) :
    Except DcaError (List (Int × Option Rat) × List (Int × Option Rat)) :=
  let raw := dca_series gold snp total_invest gold_percentage snp_percentage start_date
  match rebalance_frequency with
  | some f =>
    if f = "" then
      if raw.1.isEmpty then .error .noEligibleDates
      else .ok (wrapKnown raw.1, wrapKnown raw.2)
    else
      match mppOf f with
      | none => .error (.unknownRebalanceFrequency f)
      | some mpp =>
        let pv := resampleLast mpp raw.1
        let ci := resampleLast mpp raw.2
        if pv.isEmpty then .error .noEligibleDates
        else .ok (pv, ci)
  | none =>
    if raw.1.isEmpty then .error .noEligibleDates
    else .ok (wrapKnown raw.1, wrapKnown raw.2)

/-- Claim C3: at an eligible simulated step (both prices present), an asset
whose price is zero or negative gets no new shares (and no error is raised —
the step still completes), while the invested total still advances by the
full monthly amount. -/
theorem C3_zero_price_skip (gold snp : List Row) (total_invest gold_percentage snp_percentage : Rat)
    (s : DcaState) (d : Int) (gold_price snp_price : Rat)
    (hg : priceAt gold d = some gold_price) (hs : priceAt snp d = some snp_price) :
    (gold_price ≤ 0 →
      (dca_step gold snp total_invest gold_percentage snp_percentage s d).gold_shares =
        s.gold_shares) ∧
    (snp_price ≤ 0 →
      (dca_step gold snp total_invest gold_percentage snp_percentage s d).snp500_shares =
        s.snp500_shares) ∧
    (dca_step gold snp total_invest gold_percentage snp_percentage s d).total_invested =
      s.total_invested + total_invest := by
  unfold dca_step
  rw [hg, hs]
  refine ⟨fun hle => ?_, fun hle => ?_, rfl⟩
  · simp only [if_neg (not_lt.mpr hle)]
  · simp only [if_neg (not_lt.mpr hle)]

/-- Witness for C3: a step at a date where gold's price is 0 and the S&P
price is positive leaves the gold share count at its initial value while
the invested total advances. -/
theorem C3_zero_price_skip_witness :
    (dca_step [⟨0, 0⟩] [⟨0, 10⟩] 1000 50 50 dca_init 0).gold_shares = dca_init.gold_shares ∧
    (dca_step [⟨0, 0⟩] [⟨0, 10⟩] 1000 50 50 dca_init 0).total_invested =
      dca_init.total_invested + 1000 := by
  have h := C3_zero_price_skip [⟨0, 0⟩] [⟨0, 10⟩] 1000 50 50 dca_init 0 0 10
    (by rfl) (by rfl)
  exact ⟨h.1 le_rfl, h.2.2⟩

/-- The value taken by the cumulative-invested list after `k` simulated
steps with uniform monthly amount `t`: entry `i` is `(i+1) * t`. -/
def invested_profile (t : Rat) (k : Nat) : List Rat :=
  (List.range k).map (fun i : Nat => ((i : Rat) + 1) * t)

/-- The simulation-loop invariant: the invested total is the number of
recorded steps times the monthly amount, the cumulative list is the explicit
profile, and both accumulated lists have the same length. -/
def DcaInv (t : Rat) (s : DcaState) : Prop :=
  s.total_invested = (s.cumulative_invested.length : Rat) * t ∧
  s.cumulative_invested = invested_profile t s.cumulative_invested.length ∧
  s.total_portfolio_values.length = s.cumulative_invested.length

lemma invested_profile_succ (t : Rat) (k : Nat) :
    invested_profile t (k + 1) = invested_profile t k ++ [((k : Rat) + 1) * t] := by
  unfold invested_profile
  rw [List.range_succ, List.map_append]
  rfl

lemma dca_step_inv (gold snp : List Row) (t gp sp : Rat) (s : DcaState) (d : Int)
    (h : DcaInv t s) : DcaInv t (dca_step gold snp t gp sp s d) := by
  unfold dca_step
  rcases hg : priceAt gold d with _ | gold_price
  · exact h
  rcases hs : priceAt snp d with _ | snp_price
  · exact h
  obtain ⟨h1, h2, h3⟩ := h
  refine ⟨?_, ?_, ?_⟩
  · simp only [List.length_append, List.length_singleton]
    push_cast
    rw [h1]
    ring
  · simp only [List.length_append, List.length_singleton]
    rw [invested_profile_succ]
    nth_rewrite 1 [h2]
    rw [h1]
    congr 1
    simp only [List.cons.injEq, and_true]
    ring
  · simp only [List.length_append, List.length_singleton, h3]

lemma dca_foldl_inv (gold snp : List Row) (t gp sp : Rat) :
    ∀ (ds : List Int) (s : DcaState), DcaInv t s →
      DcaInv t (ds.foldl (dca_step gold snp t gp sp) s) := by
  intro ds
  induction ds with
  | nil => exact fun s h => h
  | cons d ds ih => exact fun s h => ih _ (dca_step_inv gold snp t gp sp s d h)

lemma dca_init_inv (t : Rat) : DcaInv t dca_init := by
  refine ⟨by simp [dca_init], by simp [dca_init, invested_profile], rfl⟩

lemma dca_final_inv (gold snp : List Row) (t gp sp : Rat) (sd : Int) :
    DcaInv t (dca_final gold snp t gp sp sd) :=
  dca_foldl_inv _ _ t gp sp _ _ (dca_init_inv t)

lemma dca_step_len_le (gold snp : List Row) (t gp sp : Rat) (s : DcaState) (d : Int) :
    (dca_step gold snp t gp sp s d).cumulative_invested.length ≤
      s.cumulative_invested.length + 1 := by
  unfold dca_step
  rcases priceAt gold d with _ | gold_price
  · simp
  rcases priceAt snp d with _ | snp_price
  · simp
  simp

lemma dca_foldl_len_le (gold snp : List Row) (t gp sp : Rat) :
    ∀ (ds : List Int) (s : DcaState),
      (ds.foldl (dca_step gold snp t gp sp) s).cumulative_invested.length ≤
        s.cumulative_invested.length + ds.length := by
  intro ds
  induction ds with
  | nil => exact fun s => le_rfl
  | cons d ds ih =>
    intro s
    calc ((d :: ds).foldl (dca_step gold snp t gp sp) s).cumulative_invested.length
        ≤ (dca_step gold snp t gp sp s d).cumulative_invested.length + ds.length := ih _
      _ ≤ s.cumulative_invested.length + (d :: ds).length := by
          have := dca_step_len_le gold snp t gp sp s d
          simp only [List.length_cons]
          omega

lemma calculate_dca_none_ok (gold snp : List Row) (t gp sp : Rat) (sd : Int)
    (pv ci : List (Int × Option Rat))
    (hok : calculate_dca gold snp t gp sp sd none = .ok (pv, ci)) :
    pv = wrapKnown (dca_series gold snp t gp sp sd).1 ∧
    ci = wrapKnown (dca_series gold snp t gp sp sd).2 ∧
    (dca_series gold snp t gp sp sd).1 ≠ [] := by
  simp only [calculate_dca] at hok
  split at hok
  · exact absurd hok (by simp)
  · next hne =>
    rw [Except.ok.injEq, Prod.mk.injEq] at hok
    exact ⟨hok.1.symm, hok.2.symm, by simpa [List.isEmpty_iff] using hne⟩

/-- Claim C4: with a uniform monthly amount `t ≥ 0` (the data model requires
a positive amount), the cumulative-invested series emitted by `calculate_dca`
(no rebalance resampling, so its entries are the simulated steps) has `i`-th
value exactly `(i+1) * t` — it advances by exactly `t` at every simulated
step, regardless of skipped purchases — and is therefore non-decreasing. -/
theorem C4_conservation (gold snp : List Row) (t gp sp : Rat) (sd : Int)
    (ht : 0 ≤ t) (pv ci : List (Int × Option Rat))
    (hok : calculate_dca gold snp t gp sp sd none = .ok (pv, ci)) :
    ci.map Prod.snd = (invested_profile t ci.length).map some ∧
    (ci.map Prod.snd).Chain' (fun a b => ∀ x ∈ a, ∀ y ∈ b, x ≤ y) := by
  obtain ⟨hpv, hci, hne⟩ := calculate_dca_none_ok gold snp t gp sp sd pv ci hok
  obtain ⟨h1, h2, h3⟩ := dca_final_inv gold snp t gp sp sd
  set fin := dca_final gold snp t gp sp sd with hfin
  set idx := (filterFrom gold sd).map (fun r => r.date) with hidx
  set k := fin.cumulative_invested.length with hk
  have hkle : k ≤ idx.length := by
    have h := dca_foldl_len_le (filterFrom gold sd) (filterFrom snp sd) t gp sp idx dca_init
    simpa [dca_init] using h
  have hraw2 : (dca_series gold snp t gp sp sd).2 = (idx.take k).zip fin.cumulative_invested :=
    rfl
  have hmap : (dca_series gold snp t gp sp sd).2.map Prod.snd = fin.cumulative_invested := by
    rw [hraw2]
    refine List.map_snd_zip _ _ ?_
    rw [List.length_take]
    omega
  have hcilen : ci.length = k := by
    rw [hci]
    unfold wrapKnown
    rw [List.length_map, hraw2, List.length_zip, List.length_take]
    omega
  have hmapsnd : ci.map Prod.snd = fin.cumulative_invested.map some := by
    rw [hci]
    unfold wrapKnown
    rw [List.map_map]
    have hcomp : (Prod.snd ∘ fun p : Int × Rat => (p.1, some p.2)) =
        ((some ∘ Prod.snd) : Int × Rat → Option Rat) := rfl
    rw [hcomp, ← List.map_map, hmap]
  constructor
  · rw [hmapsnd, hcilen]
    exact congrArg (List.map some) h2
  · rw [hmapsnd, h2]
    have hpair : (invested_profile t k).Pairwise (· ≤ ·) := by
      unfold invested_profile
      refine List.Pairwise.map _ ?_ (List.pairwise_lt_range k)
      intro i j hij
      have hc : ((i : Rat) + 1) ≤ ((j : Rat) + 1) := by
        have : (i : Rat) ≤ (j : Rat) := by exact_mod_cast hij.le
        linarith
      exact mul_le_mul_of_nonneg_right hc ht
    refine List.Pairwise.chain' ?_
    refine List.Pairwise.map _ ?_ hpair
    intro a b hab x hx y hy
    rw [Option.mem_def, Option.some.injEq] at hx hy
    rw [← hx, ← hy]
    exact hab

/-- Witness for C4: a concrete one-step run; the cumulative series is
[(0, 1000)] and satisfies the profile and monotonicity conclusions. -/
theorem C4_conservation_witness :
    ([((0 : Int), some (1000 : Rat))].map Prod.snd =
      (invested_profile 1000 ([((0 : Int), some (1000 : Rat))].length)).map some) ∧
    ([((0 : Int), some (1000 : Rat))].map Prod.snd).Chain'
      (fun a b => ∀ x ∈ a, ∀ y ∈ b, x ≤ y) := by
  have hok : calculate_dca [⟨0, 100⟩] [⟨0, 10⟩] 1000 50 50 0 none =
      .ok ([(0, some 1000)], [(0, some 1000)]) := by
    norm_num [calculate_dca, dca_series, dca_final, filterFrom, dca_step, priceAt,
      wrapKnown, dca_init, List.filter, List.find?]
  exact C4_conservation [⟨0, 100⟩] [⟨0, 10⟩] 1000 50 50 0 (by norm_num)
    [(0, some 1000)] [(0, some 1000)] hok

lemma priceAt_eq_none_iff (df : List Row) (d : Int) :
    priceAt df d = none ↔ d ∉ df.map (fun r => r.date) := by
  constructor
  · intro h hmem
    obtain ⟨r, hr, rfl⟩ := List.mem_map.mp hmem
    rw [priceAt, Option.map_eq_none'] at h
    have := List.find?_eq_none.mp h r hr
    simp at this
  · intro h
    rw [priceAt, Option.map_eq_none']
    rw [List.find?_eq_none]
    intro r hr
    simp only [decide_eq_true_eq]
    intro he
    exact h (List.mem_map.mpr ⟨r, hr, he⟩)

lemma dca_step_skip (gold snp : List Row) (t gp sp : Rat) (s : DcaState) (d : Int)
    (h : priceAt snp d = none) : dca_step gold snp t gp sp s d = s := by
  unfold dca_step
  rw [h]
  rcases priceAt gold d with _ | p <;> rfl

lemma dca_foldl_skip (gold snp : List Row) (t gp sp : Rat) :
    ∀ (ds : List Int) (s : DcaState), (∀ d ∈ ds, priceAt snp d = none) →
      ds.foldl (dca_step gold snp t gp sp) s = s := by
  intro ds
  induction ds with
  | nil => exact fun s _ => rfl
  | cons d ds ih =>
    intro s h
    rw [List.foldl_cons, dca_step_skip gold snp t gp sp s d (h d (List.mem_cons_self _ _))]
    exact ih s (fun x hx => h x (List.mem_cons_of_mem _ hx))

lemma dca_series_empty_of_no_eligible (gold snp : List Row) (t gp sp : Rat) (sd : Int)
    (hempty : eligible_dates gold snp sd = []) :
    (dca_series gold snp t gp sp sd).1 = [] ∧ (dca_series gold snp t gp sp sd).2 = [] := by
  have hall : ∀ d ∈ (filterFrom gold sd).map (fun r => r.date),
      priceAt (filterFrom snp sd) d = none := by
    intro d hd
    have hnc := List.filter_eq_nil_iff.mp hempty d hd
    rw [priceAt_eq_none_iff]
    intro hmem
    exact hnc (List.elem_iff.mpr hmem)
  have hfin : dca_final gold snp t gp sp sd = dca_init :=
    dca_foldl_skip _ _ t gp sp _ dca_init hall
  constructor <;> · simp [dca_series, hfin, dca_init]

/-- Claim C2: when no date is present in both series at or after the start
date, `calculate_dca` never returns a trajectory (for any rebalance choice),
and — for the well-formed configurations, no rebalancing or a recognized
frequency — the failure is exactly the no-eligible-dates error (the
`iloc[-1]` of the empty result series). -/
theorem C2_no_eligible_dates (gold snp : List Row) (t gp sp : Rat) (sd : Int)
    (rf : Option String) (hempty : eligible_dates gold snp sd = []) :
    (∀ r, calculate_dca gold snp t gp sp sd rf ≠ .ok r) ∧
    ((rf = none ∨ ∃ f mpp, rf = some f ∧ mppOf f = some mpp) →
      calculate_dca gold snp t gp sp sd rf = .error .noEligibleDates) := by
  obtain ⟨h1, h2⟩ := dca_series_empty_of_no_eligible gold snp t gp sp sd hempty
  rcases rf with _ | f
  · refine ⟨?_, fun _ => ?_⟩
    · intro r
      simp [calculate_dca, h1]
    · simp [calculate_dca, h1]
  · by_cases hf : f = ""
    · subst hf
      refine ⟨fun r => by simp [calculate_dca, h1], fun hc => ?_⟩
      rcases hc with hc | ⟨f', mpp, hf', hm⟩
      · cases hc
      · obtain rfl : f' = "" := by
          injection hf' with h
          exact h.symm
        simp [mppOf] at hm
    · rcases hm : mppOf f with _ | mpp
      · refine ⟨fun r => ?_, fun hc => ?_⟩
        · simp [calculate_dca, hf, hm]
        · rcases hc with hc | ⟨f', mpp, hf', hm'⟩
          · cases hc
          · obtain rfl : f' = f := by
              injection hf' with h
              exact h.symm
            rw [hm] at hm'
            cases hm'
      · have hres : resampleLast mpp ([] : List (Int × Rat)) = [] := rfl
        refine ⟨fun r => ?_, fun _ => ?_⟩
        · simp [calculate_dca, hf, hm, hres, h1]
        · simp [calculate_dca, hf, hm, hres, h1]

/-- Witness for C2: gold has only date 0, the S&P series only date 5 — no
overlap at or after start date 0, so the run fails with the
no-eligible-dates error. -/
theorem C2_no_eligible_dates_witness :
    calculate_dca [⟨0, 1⟩] [⟨5, 1⟩] 1000 50 50 0 none = .error .noEligibleDates :=
  (C2_no_eligible_dates [⟨0, 1⟩] [⟨5, 1⟩] 1000 50 50 0 none (by decide)).2 (Or.inl rfl)

lemma priceAt_isSome_of_mem (df : List Row) (d : Int)
    (h : d ∈ df.map (fun r => r.date)) : (priceAt df d).isSome := by
  rcases hp : priceAt df d with _ | p
  · rw [priceAt_eq_none_iff] at hp
    exact absurd h hp
  · rfl

lemma dca_foldl_eq_filter (gold snp : List Row) (t gp sp : Rat) :
    ∀ (ds : List Int) (s : DcaState),
      ds.foldl (dca_step gold snp t gp sp) s =
      (ds.filter (fun d => (snp.map (fun r => r.date)).contains d)).foldl
        (dca_step gold snp t gp sp) s := by
  intro ds
  induction ds with
  | nil => exact fun s => rfl
  | cons d ds ih =>
    intro s
    by_cases hc : (snp.map (fun r => r.date)).contains d
    · rw [List.filter_cons_of_pos (by simpa using hc), List.foldl_cons, List.foldl_cons]
      exact ih _
    · rw [List.filter_cons_of_neg (by simpa using hc), List.foldl_cons]
      rw [dca_step_skip gold snp t gp sp s d
        (priceAt_eq_none_iff _ _ |>.mpr (fun hm => hc (List.elem_iff.mpr hm)))]
      exact ih s

/-- The simulation state folded over the eligible dates only (the spec's
per-eligible-date algorithm, steps 1-6 of the DCA loop). -/
def dca_eligible_final (gold snp : List Row) (t gp sp : Rat) (sd : Int) : DcaState :=
  (eligible_dates gold snp sd).foldl
    (dca_step (filterFrom gold sd) (filterFrom snp sd) t gp sp) dca_init

lemma dca_final_eq_eligible (gold snp : List Row) (t gp sp : Rat) (sd : Int) :
    dca_final gold snp t gp sp sd = dca_eligible_final gold snp t gp sp sd :=
  dca_foldl_eq_filter (filterFrom gold sd) (filterFrom snp sd) t gp sp _ dca_init

lemma dca_step_len_eq (gold snp : List Row) (t gp sp : Rat) (s : DcaState) (d : Int)
    (hg : (priceAt gold d).isSome) (hs : (priceAt snp d).isSome) :
    (dca_step gold snp t gp sp s d).cumulative_invested.length =
      s.cumulative_invested.length + 1 := by
  obtain ⟨a, ha⟩ := Option.isSome_iff_exists.mp hg
  obtain ⟨b, hb⟩ := Option.isSome_iff_exists.mp hs
  unfold dca_step
  rw [ha, hb]
  simp

lemma dca_foldl_len_eq (gold snp : List Row) (t gp sp : Rat) :
    ∀ (ds : List Int) (s : DcaState),
      (∀ d ∈ ds, (priceAt gold d).isSome ∧ (priceAt snp d).isSome) →
      (ds.foldl (dca_step gold snp t gp sp) s).cumulative_invested.length =
        s.cumulative_invested.length + ds.length := by
  intro ds
  induction ds with
  | nil => exact fun s _ => rfl
  | cons d ds ih =>
    intro s h
    rw [List.foldl_cons, ih _ (fun x hx => h x (List.mem_cons_of_mem _ hx)),
      dca_step_len_eq gold snp t gp sp s d (h d (List.mem_cons_self _ _)).1
        (h d (List.mem_cons_self _ _)).2, List.length_cons]
    omega

lemma calculate_dca_empty_freq_ok (gold snp : List Row) (t gp sp : Rat) (sd : Int)
    (pv ci : List (Int × Option Rat))
    (hok : calculate_dca gold snp t gp sp sd (some "") = .ok (pv, ci)) :
    pv = wrapKnown (dca_series gold snp t gp sp sd).1 ∧
    ci = wrapKnown (dca_series gold snp t gp sp sd).2 ∧
    (dca_series gold snp t gp sp sd).1 ≠ [] := by
  simp only [calculate_dca, if_true] at hok
  split at hok
  · exact absurd hok (by simp)
  · next hne =>
    rw [Except.ok.injEq, Prod.mk.injEq] at hok
    exact ⟨hok.1.symm, hok.2.symm, by simpa [List.isEmpty_iff] using hne⟩

lemma calculate_dca_rebalance_ok (gold snp : List Row) (t gp sp : Rat) (sd : Int)
    (f : String) (mpp : Int) (hf : ¬ f = "") (hm : mppOf f = some mpp)
    (pv ci : List (Int × Option Rat))
    (hok : calculate_dca gold snp t gp sp sd (some f) = .ok (pv, ci)) :
    pv = resampleLast mpp (dca_series gold snp t gp sp sd).1 ∧
    ci = resampleLast mpp (dca_series gold snp t gp sp sd).2 ∧
    resampleLast mpp (dca_series gold snp t gp sp sd).1 ≠ [] := by
  simp only [calculate_dca, hf, if_false, hm] at hok
  split at hok
  · exact absurd hok (by simp)
  · next hne =>
    rw [Except.ok.injEq, Prod.mk.injEq] at hok
    exact ⟨hok.1.symm, hok.2.symm, by simpa [List.isEmpty_iff] using hne⟩

lemma wrapKnown_map_fst (l : List (Int × Rat)) :
    (wrapKnown l).map Prod.fst = l.map Prod.fst := by
  unfold wrapKnown
  rw [List.map_map]
  rfl

lemma resampleLast_congr (mpp : Int) (l1 l2 : List (Int × Rat))
    (h : l1.map Prod.fst = l2.map Prod.fst) :
    (resampleLast mpp l1).map Prod.fst = (resampleLast mpp l2).map Prod.fst ∧
    (resampleLast mpp l1).length = (resampleLast mpp l2).length := by
  rcases l1 with _ | ⟨p0, l1'⟩
  · obtain rfl : l2 = [] := by simpa using h.symm
    exact ⟨rfl, rfl⟩
  rcases l2 with _ | ⟨q0, l2'⟩
  · simp at h
  have hds : (p0 :: l1').map Prod.fst = (q0 :: l2').map Prod.fst := h
  have hp : p0.1 = q0.1 := by
    simp only [List.map_cons, List.cons.injEq] at h
    exact h.1
  constructor
  · simp only [resampleLast]
    rw [List.map_map, List.map_map, hds, hp]
    exact List.map_congr_left (fun i _ => rfl)
  · simp only [resampleLast]
    rw [List.length_map, List.length_map, hds, hp]

/-- Claim C1 (amended): the two output series of `calculate_dca` always have
equal length and identical date index; the recorded values are exactly the
per-eligible-date values of the spec's loop (the state folded over the
eligible dates in order); and the dates attached to them are the eligible
dates themselves — giving exactly the pairs (d, value at d) — under the
condition that every gold date at or after the start date also occurs in the
S&P series (which the upstream pipeline's common-range alignment
establishes).  Without that condition the code labels the values with the
first n dates of the filtered gold index instead (see the counterexample). -/
theorem C1_series_alignment (gold snp : List Row) (t gp sp : Rat) (sd : Int) :
    (∀ rf pv ci, calculate_dca gold snp t gp sp sd rf = .ok (pv, ci) →
      pv.length = ci.length ∧ pv.map Prod.fst = ci.map Prod.fst) ∧
    ((dca_series gold snp t gp sp sd).1.map Prod.snd =
        (dca_eligible_final gold snp t gp sp sd).total_portfolio_values ∧
      (dca_series gold snp t gp sp sd).2.map Prod.snd =
        (dca_eligible_final gold snp t gp sp sd).cumulative_invested) ∧
    ((∀ d ∈ (filterFrom gold sd).map (fun r => r.date),
        d ∈ (filterFrom snp sd).map (fun r => r.date)) →
      (dca_series gold snp t gp sp sd).1.map Prod.fst = eligible_dates gold snp sd ∧
      (dca_series gold snp t gp sp sd).2.map Prod.fst = eligible_dates gold snp sd) := by
  obtain ⟨hinv1, hinv2, hinv3⟩ := dca_final_inv gold snp t gp sp sd
  set fin := dca_final gold snp t gp sp sd with hfin
  set idx := (filterFrom gold sd).map (fun r => r.date) with hidx
  set k := fin.cumulative_invested.length with hk
  have hkle : k ≤ idx.length := by
    have h := dca_foldl_len_le (filterFrom gold sd) (filterFrom snp sd) t gp sp idx dca_init
    simpa [dca_init] using h
  have hraw1 : (dca_series gold snp t gp sp sd).1 =
      (idx.take fin.total_portfolio_values.length).zip fin.total_portfolio_values := rfl
  have hraw2 : (dca_series gold snp t gp sp sd).2 =
      (idx.take k).zip fin.cumulative_invested := rfl
  have htk : (idx.take k).length = k := by
    rw [List.length_take]
    omega
  have hfst1 : (dca_series gold snp t gp sp sd).1.map Prod.fst = idx.take k := by
    rw [hraw1, hinv3]
    exact List.map_fst_zip _ _ (by rw [htk, hinv3])
  have hfst2 : (dca_series gold snp t gp sp sd).2.map Prod.fst = idx.take k := by
    rw [hraw2]
    exact List.map_fst_zip _ _ (by rw [htk])
  have hlen12 : (dca_series gold snp t gp sp sd).1.length =
      (dca_series gold snp t gp sp sd).2.length := by
    rw [hraw1, hraw2, List.length_zip, List.length_zip, hinv3]
  refine ⟨?_, ⟨?_, ?_⟩, ?_⟩
  · intro rf pv ci hok
    rcases rf with _ | f
    · obtain ⟨hpv, hci, -⟩ := calculate_dca_none_ok gold snp t gp sp sd pv ci hok
      subst hpv
      subst hci
      refine ⟨by simp [wrapKnown, hlen12], ?_⟩
      rw [wrapKnown_map_fst, wrapKnown_map_fst, hfst1, hfst2]
    · by_cases hf : f = ""
      · subst hf
        obtain ⟨hpv, hci, -⟩ := calculate_dca_empty_freq_ok gold snp t gp sp sd pv ci hok
        subst hpv
        subst hci
        refine ⟨by simp [wrapKnown, hlen12], ?_⟩
        rw [wrapKnown_map_fst, wrapKnown_map_fst, hfst1, hfst2]
      · rcases hm : mppOf f with _ | mpp
        · rw [show calculate_dca gold snp t gp sp sd (some f) =
            .error (.unknownRebalanceFrequency f) from by
              simp [calculate_dca, hf, hm]] at hok
          exact absurd hok (by simp)
        · obtain ⟨hpv, hci, -⟩ :=
            calculate_dca_rebalance_ok gold snp t gp sp sd f mpp hf hm pv ci hok
          subst hpv
          subst hci
          have hc := resampleLast_congr mpp (dca_series gold snp t gp sp sd).1
            (dca_series gold snp t gp sp sd).2 (by rw [hfst1, hfst2])
          exact ⟨hc.2, hc.1⟩
  · rw [hraw1]
    have hle : fin.total_portfolio_values.length ≤
        (idx.take fin.total_portfolio_values.length).length := by
      rw [List.length_take, hinv3]
      omega
    rw [List.map_snd_zip _ _ hle, hfin, dca_final_eq_eligible]
  · rw [hraw2]
    have hle : fin.cumulative_invested.length ≤ (idx.take k).length := by rw [htk]
    rw [List.map_snd_zip _ _ hle, hfin, dca_final_eq_eligible]
  · intro hsub
    have he : eligible_dates gold snp sd = idx :=
      List.filter_eq_self.mpr (fun d hd => List.elem_iff.mpr (hsub d hd))
    have hkeq : k = idx.length := by
      have h := dca_foldl_len_eq (filterFrom gold sd) (filterFrom snp sd) t gp sp idx dca_init
        (fun d hd => ⟨priceAt_isSome_of_mem _ d hd, priceAt_isSome_of_mem _ d (hsub d hd)⟩)
      simpa [dca_init] using h
    have htake : idx.take k = idx := by
      rw [hkeq]
      exact List.take_length idx
    rw [hfst1, hfst2, htake, he]
    exact ⟨rfl, rfl⟩

/-- Witness for C1: at a one-month aligned input, the ok-result has equal
length and identical index, and the date index is exactly the eligible
dates. -/
theorem C1_series_alignment_witness :
    (([((0 : Int), some (1000 : Rat))].length = [((0 : Int), some (1000 : Rat))].length ∧
      [((0 : Int), some (1000 : Rat))].map Prod.fst =
        [((0 : Int), some (1000 : Rat))].map Prod.fst)) ∧
    (dca_series [(⟨0, 100⟩ : Row)] [(⟨0, 10⟩ : Row)] 1000 50 50 0).1.map Prod.fst =
      eligible_dates [(⟨0, 100⟩ : Row)] [(⟨0, 10⟩ : Row)] 0 := by
  have h := C1_series_alignment [⟨0, 100⟩] [⟨0, 10⟩] 1000 50 50 0
  have hok : calculate_dca [⟨0, 100⟩] [⟨0, 10⟩] 1000 50 50 0 none =
      .ok ([(0, some 1000)], [(0, some 1000)]) := by
    norm_num [calculate_dca, dca_series, dca_final, filterFrom, dca_step, priceAt,
      wrapKnown, dca_init, List.filter, List.find?]
  exact ⟨h.1 none _ _ hok, (h.2.2 (by decide)).1⟩

/-- Counterexample for C1 as stated: gold has dates [0, 1], the S&P series
only date 1, start date 0.  The only eligible date is 1, yet the returned
trajectory is [(0, 1000)]: the value computed at eligible date 1 is labelled
with date 0 — a date absent from the S&P series IS recorded, and the pair
(1, value at 1) is absent. -/
theorem C1_misalignment_counterexample :
    calculate_dca [(⟨0, 100⟩ : Row), ⟨1, 110⟩] [(⟨1, 10⟩ : Row)] 1000 50 50 0 none =
      .ok ([(0, some 1000)], [(0, some 1000)]) ∧
    eligible_dates [(⟨0, 100⟩ : Row), ⟨1, 110⟩] [(⟨1, 10⟩ : Row)] 0 = [1] ∧
    (0 : Int) ∉ eligible_dates [(⟨0, 100⟩ : Row), ⟨1, 110⟩] [(⟨1, 10⟩ : Row)] 0 := by
  refine ⟨?_, by decide, by decide⟩
  norm_num [calculate_dca, dca_series, dca_final, filterFrom, dca_step, priceAt,
    wrapKnown, dca_init, List.filter, List.find?]

lemma mppOf_pos (f : String) (mpp : Int) (hm : mppOf f = some mpp) : 0 < mpp := by
  unfold mppOf at hm
  split_ifs at hm
  all_goals injection hm with h
  all_goals omega

lemma mppOf_ne_empty (f : String) (mpp : Int) (hm : mppOf f = some mpp) : ¬ f = "" := by
  intro he
  subst he
  simp [mppOf] at hm

lemma resampleLast_ne_nil (mpp : Int) (hmpp : 0 < mpp) (l : List (Int × Rat))
    (hl : l ≠ []) : resampleLast mpp l ≠ [] := by
  rcases l with _ | ⟨p0, l'⟩
  · exact absurd rfl hl
  simp only [resampleLast]
  intro hcon
  rw [List.map_eq_nil, List.range_eq_nil] at hcon
  have h1 : ((p0 :: l').map Prod.fst).foldl min p0.1 ≤ p0.1 :=
    InterpFill.foldl_min_le_init _ _
  have h2 : p0.1 ≤ ((p0 :: l').map Prod.fst).foldl max p0.1 :=
    InterpFill.init_le_foldl_max _ _
  have h3 : (((p0 :: l').map Prod.fst).foldl min p0.1) / mpp ≤
      (((p0 :: l').map Prod.fst).foldl max p0.1) / mpp :=
    Int.ediv_le_ediv hmpp (le_trans h1 h2)
  omega

/-- Claim C8: with a recognized rebalance frequency, `calculate_dca` returns
exactly the no-rebalance trajectory of the same inputs resampled to the
rebalance cadence taking the last value of each period, for both output
series.  The simulation state (share counts included) is `dca_final`, a
function that does not take the rebalance frequency at all, so the per-step
share counts of the two runs coincide by construction; rebalancing only
changes reporting granularity. -/
theorem C8_rebalance_is_resample (gold snp : List Row) (t gp sp : Rat) (sd : Int)
    (f : String) (mpp : Int) (hm : mppOf f = some mpp)
    (pv ci : List (Int × Option Rat))
    (hok : calculate_dca gold snp t gp sp sd none = .ok (pv, ci)) :
    calculate_dca gold snp t gp sp sd (some f) =
      .ok (resampleLast mpp (dca_series gold snp t gp sp sd).1,
        resampleLast mpp (dca_series gold snp t gp sp sd).2) ∧
    pv = wrapKnown (dca_series gold snp t gp sp sd).1 ∧
    ci = wrapKnown (dca_series gold snp t gp sp sd).2 := by
  obtain ⟨hpv, hci, hne⟩ := calculate_dca_none_ok gold snp t gp sp sd pv ci hok
  have hres := resampleLast_ne_nil mpp (mppOf_pos f mpp hm) _ hne
  refine ⟨?_, hpv, hci⟩
  simp only [calculate_dca, mppOf_ne_empty f mpp hm, if_false, hm]
  rw [if_neg (by simpa [List.isEmpty_iff] using hres)]

/-- Witness for C8: a monthly-rebalance run on a one-month input equals the
resampled no-rebalance run. -/
theorem C8_rebalance_is_resample_witness :
    calculate_dca [(⟨0, 100⟩ : Row)] [(⟨0, 10⟩ : Row)] 1000 50 50 0 (some "monthly") =
      .ok (resampleLast 1 (dca_series [(⟨0, 100⟩ : Row)] [(⟨0, 10⟩ : Row)] 1000 50 50 0).1,
        resampleLast 1 (dca_series [(⟨0, 100⟩ : Row)] [(⟨0, 10⟩ : Row)] 1000 50 50 0).2) := by
  have hok : calculate_dca [(⟨0, 100⟩ : Row)] [⟨0, 10⟩] 1000 50 50 0 none =
      .ok ([(0, some 1000)], [(0, some 1000)]) := by
    norm_num [calculate_dca, dca_series, dca_final, filterFrom, dca_step, priceAt,
      wrapKnown, dca_init, List.filter, List.find?]
  exact (C8_rebalance_is_resample [⟨0, 100⟩] [⟨0, 10⟩] 1000 50 50 0 "monthly" 1
    (by simp [mppOf]) [(0, some 1000)] [(0, some 1000)] hok).1

/-- One user-entered scenario of `collect_dca_scenarios`: monthly amount,
gold allocation percentage (the S&P share is its complement to 100), and the
optional rebalance frequency answer. -/
structure ScenarioInput where
  total_invest : Rat
  gold_percentage : Rat
  rebalance_frequency : Option String
deriving DecidableEq

/-- The label attached to the i-th scenario (0-based loop index; the label
text of the source interpolates the scenario parameters, which plays no
computational role). -/
def scenarioLabel (i : Nat) : String := "DCA Scenario " ++ toString (i + 1)

/-- The scenario loop of `collect_dca_scenarios`, starting at loop index
`i`: each iteration calls `calculate_dca`; an exception (error) propagates
immediately and aborts the remaining iterations, exactly as an uncaught
Python exception leaves the `for` loop. -/
def collectAux (gold snp : List Row) (sd : Int) :
    Nat → List ScenarioInput →
    Except DcaError (List ((List (Int × Option Rat)) × (List (Int × Option Rat)) × String))
  | _, [] => .ok []
  | i, inp :: rest =>
    match calculate_dca gold snp inp.total_invest inp.gold_percentage
      (100 - inp.gold_percentage) sd inp.rebalance_frequency with
    | .error e => .error e
    | .ok (pv, ci) =>
      match collectAux gold snp sd (i + 1) rest with
      | .error e => .error e
      | .ok rs => .ok ((pv, ci, scenarioLabel i) :: rs)

/-- Embedding of `collect_dca_scenarios`: the start date passed to every
scenario is `gold_monthly.index[0]` (failing on an empty index), and the
scenarios run in order through `collectAux`. -/
def collect_dca_scenarios (gold snp : List Row) (inputs : List ScenarioInput) :
    Except DcaError (List ((List (Int × Option Rat)) × (List (Int × Option Rat)) × String)) :=
  match gold with
  | [] => .error .emptyGoldIndex
  | g0 :: _ => collectAux gold snp g0.date 0 inputs

lemma collectAux_ok (gold snp : List Row) (sd : Int) :
    ∀ (inputs : List ScenarioInput) (i0 : Nat),
      (∀ inp ∈ inputs, ∃ r, calculate_dca gold snp inp.total_invest inp.gold_percentage
        (100 - inp.gold_percentage) sd inp.rebalance_frequency = .ok r) →
      ∃ rs, collectAux gold snp sd i0 inputs = .ok rs ∧
        rs.length = inputs.length ∧
        ∀ j inp, inputs.get? j = some inp → ∃ pv ci,
          calculate_dca gold snp inp.total_invest inp.gold_percentage
            (100 - inp.gold_percentage) sd inp.rebalance_frequency = .ok (pv, ci) ∧
          rs.get? j = some (pv, ci, scenarioLabel (i0 + j)) := by
  intro inputs
  induction inputs with
  | nil =>
    intro i0 _
    exact ⟨[], rfl, rfl, fun j inp hj => by simp at hj⟩
  | cons inp rest ih =>
    intro i0 hall
    obtain ⟨⟨pv, ci⟩, hr⟩ := hall inp (List.mem_cons_self _ _)
    obtain ⟨rs, hrs, hlen, hidx⟩ :=
      ih (i0 + 1) (fun x hx => hall x (List.mem_cons_of_mem _ hx))
    refine ⟨(pv, ci, scenarioLabel i0) :: rs, ?_, by simp [hlen], ?_⟩
    · unfold collectAux
      rw [hr, hrs]
    · intro j x hj
      cases j with
      | zero =>
        simp only [List.get?] at hj
        obtain rfl : inp = x := by simpa using hj
        exact ⟨pv, ci, hr, by simp [scenarioLabel]⟩
      | succ n =>
        simp only [List.get?] at hj
        obtain ⟨pv', ci', hr', hrs'⟩ := hidx n x hj
        refine ⟨pv', ci', hr', ?_⟩
        simpa [show i0 + 1 + n = i0 + (n + 1) from by omega] using hrs'

/-- Claim C9 (amended): the scenario loop aborts at the first failing
scenario — the error propagates out of `collect_dca_scenarios` and the
remaining scenarios are not run (no per-item isolation); when every
scenario succeeds, one (trajectory pair, label) per config is produced, in
config order with the matching per-scenario result at each index. -/
theorem C9_batch_order (gold snp : List Row) (g0 : Row) (grest : List Row)
    (hg : gold = g0 :: grest) (inputs : List ScenarioInput)
    (hall : ∀ inp ∈ inputs, ∃ r, calculate_dca gold snp inp.total_invest
      inp.gold_percentage (100 - inp.gold_percentage) g0.date
      inp.rebalance_frequency = .ok r) :
    ∃ rs, collect_dca_scenarios gold snp inputs = .ok rs ∧
      rs.length = inputs.length ∧
      ∀ j inp, inputs.get? j = some inp → ∃ pv ci,
        calculate_dca gold snp inp.total_invest inp.gold_percentage
          (100 - inp.gold_percentage) g0.date inp.rebalance_frequency = .ok (pv, ci) ∧
        rs.get? j = some (pv, ci, scenarioLabel j) := by
  subst hg
  obtain ⟨rs, hrs, hlen, hidx⟩ := collectAux_ok (g0 :: grest) snp g0.date inputs 0 hall
  refine ⟨rs, hrs, hlen, ?_⟩
  intro j inp hj
  simpa using hidx j inp hj

/-- Witness for C9's amended theorem: a two-scenario batch where both
scenarios succeed yields both results in order. -/
theorem C9_batch_order_witness :
    ∃ rs, collect_dca_scenarios [(⟨0, 100⟩ : Row)] [(⟨0, 10⟩ : Row)]
        [⟨1000, 50, none⟩, ⟨2000, 50, none⟩] = .ok rs ∧
      rs.length = 2 := by
  have h1 : calculate_dca [(⟨0, 100⟩ : Row)] [(⟨0, 10⟩ : Row)] 1000 50 (100 - 50) 0 none =
      .ok ([(0, some 1000)], [(0, some 1000)]) := by
    norm_num [calculate_dca, dca_series, dca_final, filterFrom, dca_step, priceAt,
      wrapKnown, dca_init, List.filter, List.find?]
  have h2 : calculate_dca [(⟨0, 100⟩ : Row)] [(⟨0, 10⟩ : Row)] 2000 50 (100 - 50) 0 none =
      .ok ([(0, some 2000)], [(0, some 2000)]) := by
    norm_num [calculate_dca, dca_series, dca_final, filterFrom, dca_step, priceAt,
      wrapKnown, dca_init, List.filter, List.find?]
  have hall : ∀ inp ∈ [(⟨1000, 50, none⟩ : ScenarioInput), ⟨2000, 50, none⟩],
      ∃ r, calculate_dca [(⟨0, 100⟩ : Row)] [(⟨0, 10⟩ : Row)] inp.total_invest
        inp.gold_percentage (100 - inp.gold_percentage) (0 : Int)
        inp.rebalance_frequency = .ok r := by
    intro inp hinp
    rcases List.mem_cons.mp hinp with rfl | hinp'
    · exact ⟨_, h1⟩
    · rcases List.mem_cons.mp hinp' with rfl | h
      · exact ⟨_, h2⟩
      · cases h
  obtain ⟨rs, hrs, hlen, -⟩ := C9_batch_order [⟨0, 100⟩] [⟨0, 10⟩] ⟨0, 100⟩ [] rfl
    [⟨1000, 50, none⟩, ⟨2000, 50, none⟩] hall
  exact ⟨rs, hrs, hlen⟩

/-- Counterexample for C9 as stated: two scenarios over the same aligned
series; the first uses the unrecognized rebalance answer "daily" (the
`resample(None)` TypeError — a fatal per-scenario error), the second would
succeed, yet `collect_dca_scenarios` returns only the propagated error: the
second scenario's result is not produced, so failures are NOT isolated per
scenario. -/
theorem C9_no_isolation_counterexample :
    collect_dca_scenarios [(⟨0, 100⟩ : Row)] [(⟨0, 10⟩ : Row)]
      [⟨1000, 50, some "daily"⟩, ⟨1000, 50, none⟩] =
      .error (.unknownRebalanceFrequency "daily") ∧
    calculate_dca [(⟨0, 100⟩ : Row)] [(⟨0, 10⟩ : Row)] 1000 50 50 0 none =
      .ok ([(0, some 1000)], [(0, some 1000)]) := by
  constructor
  · rfl
  · norm_num [calculate_dca, dca_series, dca_final, filterFrom, dca_step, priceAt,
      wrapKnown, dca_init, List.filter, List.find?]

/-- A raw CSV row of `clean_data`'s input frames: the 'Date' column value
and the remaining numeric payload (one representative value column). -/
structure CsvRow where
  date : Int
  value : Rat
deriving DecidableEq

/-- Embedding of pandas `drop_duplicates(subset='Date')` with the default
`keep='first'`: the first row of each date is kept, every later row with an
already-seen date is discarded, and the order of kept rows is unchanged. -/
def drop_duplicates : List CsvRow → List CsvRow
  | [] => []
  | r :: rest => r :: drop_duplicates (rest.filter (fun x => x.date ≠ r.date))
termination_by l => l.length
decreasing_by
  simp only [List.length_cons]
  exact Nat.lt_succ_of_le (List.length_filter_le _ _)

/-- Embedding of `clean_data` (both frames carry the required 'Date'
column, so the KeyError branches are not taken): each frame is
deduplicated by date, keeping first occurrences. -/
def clean_data (gold_df snp500_df : List CsvRow) : List CsvRow × List CsvRow :=
  (drop_duplicates gold_df, drop_duplicates snp500_df)

lemma drop_duplicates_subset_aux :
    ∀ (n : Nat) (l : List CsvRow), l.length ≤ n → ∀ x ∈ drop_duplicates l, x ∈ l := by
  intro n
  induction n with
  | zero =>
    intro l hl x hx
    rw [List.length_eq_zero.mp (Nat.le_zero.mp hl)] at hx ⊢
    rw [drop_duplicates] at hx
    cases hx
  | succ n ih =>
    intro l hl x hx
    rcases l with _ | ⟨r, rest⟩
    · rw [drop_duplicates] at hx
      cases hx
    · rw [drop_duplicates] at hx
      rcases List.mem_cons.mp hx with rfl | hmem
      · exact List.mem_cons_self _ _
      · have hle : (rest.filter (fun x => x.date ≠ r.date)).length ≤ n := by
          have := List.length_filter_le (fun x => x.date ≠ r.date) rest
          simp only [List.length_cons] at hl
          omega
        exact List.mem_cons_of_mem _
          (List.mem_of_mem_filter (ih _ hle x hmem))

lemma drop_duplicates_subset (l : List CsvRow) : ∀ x ∈ drop_duplicates l, x ∈ l :=
  drop_duplicates_subset_aux l.length l le_rfl

lemma drop_duplicates_filter_date_aux :
    ∀ (n : Nat) (l : List CsvRow), l.length ≤ n → ∀ d : Int,
      (drop_duplicates l).filter (fun r => r.date = d) =
        (l.filter (fun r => r.date = d)).take 1 := by
  intro n
  induction n with
  | zero =>
    intro l hl d
    rw [List.length_eq_zero.mp (Nat.le_zero.mp hl), drop_duplicates]
    rfl
  | succ n ih =>
    intro l hl d
    rcases l with _ | ⟨r, rest⟩
    · rw [drop_duplicates]
      rfl
    · have hle : (rest.filter (fun x => x.date ≠ r.date)).length ≤ n := by
        have := List.length_filter_le (fun x => x.date ≠ r.date) rest
        simp only [List.length_cons] at hl
        omega
      rw [drop_duplicates]
      by_cases hd : r.date = d
      · rw [List.filter_cons_of_pos (by simpa using hd),
          List.filter_cons_of_pos (by simpa using hd)]
        have hnil : (drop_duplicates (rest.filter (fun x => x.date ≠ r.date))).filter
            (fun x => x.date = d) = [] := by
          rw [List.filter_eq_nil_iff]
          intro a ha
          have hmem := drop_duplicates_subset _ a ha
          have := List.of_mem_filter hmem
          simp only [decide_eq_true_eq, ne_eq, decide_not] at this ⊢
          intro he
          rw [hd] at this
          simp [he] at this
        rw [hnil]
        simp
      · rw [List.filter_cons_of_neg (by simpa using hd),
          List.filter_cons_of_neg (by simpa using hd)]
        rw [ih _ hle d]
        congr 1
        rw [List.filter_filter]
        refine List.filter_congr ?_
        intro a _
        by_cases ha : a.date = d
        · have hne : ¬ a.date = r.date := by
            rw [ha]
            intro hc
            exact hd hc.symm
          simp only [ha] at hne
          simp [ha, hne]
        · simp [ha]

lemma drop_duplicates_filter_date (l : List CsvRow) (d : Int) :
    (drop_duplicates l).filter (fun r => r.date = d) =
      (l.filter (fun r => r.date = d)).take 1 :=
  drop_duplicates_filter_date_aux l.length l le_rfl d

lemma drop_duplicates_of_nodup_aux :
    ∀ (n : Nat) (l : List CsvRow), l.length ≤ n →
      (l.map (fun r => r.date)).Nodup → drop_duplicates l = l := by
  intro n
  induction n with
  | zero =>
    intro l hl _
    rw [List.length_eq_zero.mp (Nat.le_zero.mp hl), drop_duplicates]
  | succ n ih =>
    intro l hl hnd
    rcases l with _ | ⟨r, rest⟩
    · rw [drop_duplicates]
    · simp only [List.map_cons, List.nodup_cons] at hnd
      have hfil : rest.filter (fun x => x.date ≠ r.date) = rest := by
        rw [List.filter_eq_self]
        intro a ha
        simp only [ne_eq, decide_not, Bool.not_eq_true', decide_eq_false_iff_not]
        intro he
        exact hnd.1 (List.mem_map.mpr ⟨a, ha, he⟩)
      rw [drop_duplicates, hfil,
        ih rest (by simp only [List.length_cons] at hl; omega) hnd.2]

lemma drop_duplicates_of_nodup (l : List CsvRow)
    (hnd : (l.map (fun r => r.date)).Nodup) : drop_duplicates l = l :=
  drop_duplicates_of_nodup_aux l.length l le_rfl hnd

/-- Claim C10: `clean_data` keeps, for each date, exactly the first row
carrying that date (later rows for the same date are discarded, not
averaged) in both frames, and a frame whose dates are already unique passes
through unchanged. -/
theorem C10_clean_data_keep_first (gold_df snp500_df : List CsvRow) :
    (∀ d : Int, (clean_data gold_df snp500_df).1.filter (fun r => r.date = d) =
      (gold_df.filter (fun r => r.date = d)).take 1) ∧
    (∀ d : Int, (clean_data gold_df snp500_df).2.filter (fun r => r.date = d) =
      (snp500_df.filter (fun r => r.date = d)).take 1) ∧
    ((gold_df.map (fun r => r.date)).Nodup → (clean_data gold_df snp500_df).1 = gold_df) ∧
    ((snp500_df.map (fun r => r.date)).Nodup → (clean_data gold_df snp500_df).2 = snp500_df) :=
  ⟨fun d => drop_duplicates_filter_date gold_df d,
   fun d => drop_duplicates_filter_date snp500_df d,
   fun h => drop_duplicates_of_nodup gold_df h,
   fun h => drop_duplicates_of_nodup snp500_df h⟩

/-- Witness for C10: on a frame with duplicate date 1 (values 5 then 7) the
first row is kept and the 7-row dropped; a duplicate-free frame passes
through unchanged. -/
theorem C10_clean_data_keep_first_witness :
    (clean_data [(⟨1, 5⟩ : CsvRow), ⟨1, 7⟩] [(⟨2, 3⟩ : CsvRow)]).1.filter
      (fun r => r.date = 1) = ([(⟨1, 5⟩ : CsvRow), ⟨1, 7⟩].filter (fun r => r.date = 1)).take 1 ∧
    (clean_data [(⟨1, 5⟩ : CsvRow), ⟨1, 7⟩] [(⟨2, 3⟩ : CsvRow)]).2 = [(⟨2, 3⟩ : CsvRow)] := by
  have h := C10_clean_data_keep_first [(⟨1, 5⟩ : CsvRow), ⟨1, 7⟩] [(⟨2, 3⟩ : CsvRow)]
  exact ⟨h.1 1, h.2.2.2 (by decide)⟩

end PlotComp
